import Mathlib

/- Verification of the ai-fitness-coach backend core: profile extraction
   (backend/app/services/profile_logic.py and rag_service.py), TDEE computation,
   document chunking and retrieval (backend/app/services/rag_index.py), and the
   dialogue engine's intent / slot-filling logic (rag_service.py).

   Strings are modelled as lists of characters with ASCII semantics for the
   character classes used by the regular expressions of the source (word
   characters, digits, whitespace, lowercasing).  Python floats are modelled as
   rationals; Python round() (round-half-to-even) is modelled by pyRound.
   Each regular expression of the source is embedded as a bespoke executable
   matcher that follows Python re.search semantics: leftmost match position,
   alternation tried in written order, greedy quantifiers with backtracking. -/

set_option maxRecDepth 10000

namespace AiFitnessCoach

abbrev Chars := List Char

def str (x : String) : Chars := x.data

/-! Character classes, ASCII semantics. -/

def isWs (c : Char) : Bool :=
  c = ' ' || c = '\t' || c = '\n' || c = '\r' || c = '\x0b' || c = '\x0c'

def isDigitC (c : Char) : Bool := 48 ≤ c.toNat && c.toNat ≤ 57

def digitVal (c : Char) : Nat := c.toNat - 48

def isWordC (c : Char) : Bool :=
  isDigitC c || (97 ≤ c.toNat && c.toNat ≤ 122) || (65 ≤ c.toNat && c.toNat ≤ 90) || c = '_'

def isWordOpt : Option Char → Bool
  | none => false
  | some c => isWordC c

def lowerC (c : Char) : Char :=
  if 65 ≤ c.toNat && c.toNat ≤ 90 then Char.ofNat (c.toNat + 32) else c

def asciiLower (l : Chars) : Chars := l.map lowerC

/-! List-of-char utilities mirroring the Python string operations used. -/

def startsL (p l : Chars) : Bool := List.isPrefixOf p l

/-- Python substring membership test (the in operator). -/
def containsSub : Chars → Chars → Bool
  | n, [] => n.isEmpty
  | n, c :: t => startsL n (c :: t) || containsSub n t

/-- Python str.count: number of non-overlapping occurrences.  The fuel (an
upper bound on the scan length, one unit per consumed character) makes the
recursion structural so every application kernel-reduces; it is always
called with the input length, which each step stays within. -/
def countSubGo (n : Chars) : Nat → Chars → Nat
  | _, [] => 0
  | 0, _ => 0
  | fuel + 1, c :: t =>
    if startsL n (c :: t) && !n.isEmpty then 1 + countSubGo n fuel (t.drop (n.length - 1))
    else countSubGo n fuel t

def countSub (n l : Chars) : Nat := countSubGo n l.length l

/-- Python str.strip (both ends, whitespace). -/
def stripL (l : Chars) : Chars :=
  ((l.dropWhile isWs).reverse.dropWhile isWs).reverse

/-- Python str.split with a literal (non-regex) separator; fuelled as in
countSubGo. -/
def splitOnSubGo (sep : Chars) : Nat → Chars → Chars → List Chars
  | _, acc, [] => [acc.reverse]
  | 0, acc, l => [acc.reverse ++ l]
  | fuel + 1, acc, c :: t =>
    if startsL sep (c :: t) && !sep.isEmpty then
      acc.reverse :: splitOnSubGo sep fuel [] (t.drop (sep.length - 1))
    else splitOnSubGo sep fuel (c :: acc) t

def splitLit (sep l : Chars) : List Chars := splitOnSubGo sep l.length [] l

/-- Length of the leading whitespace run (for greedy backslash-s-star). -/
def wsRun (l : Chars) : Nat := (l.takeWhile isWs).length

/-- Maximal word-character runs, as Python re.findall of a word-class-plus;
fuelled as in countSubGo. -/
def wordsOfGo : Nat → Chars → List Chars
  | _, [] => []
  | 0, _ => []
  | fuel + 1, c :: t =>
    if isWordC c then (c :: t.takeWhile isWordC) :: wordsOfGo fuel (t.dropWhile isWordC)
    else wordsOfGo fuel t

def wordsOf (l : Chars) : List Chars := wordsOfGo l.length l

def firstSome? {α β : Type} (l : List α) (f : α → Option β) : Option β :=
  match l with
  | [] => none
  | a :: t => match f a with
    | some b => some b
    | none => firstSome? t f

/-- Generic regex search scaffold: try the position matcher at each start
position from the left, threading the preceding character for word-boundary
tests; the first position where the matcher succeeds wins. -/
def scanSearch {α : Type} (m : Option Char → Chars → Option α) :
    Option Char → Chars → Option α
  | _, [] => none
  | prev, c :: rest =>
    match m prev (c :: rest) with
    | some v => some v
    | none => scanSearch m (some c) rest

theorem scanSearch_some {α : Type} (m : Option Char → Chars → Option α)
    (p : Option Char) (l : Chars) (v : α) (h : scanSearch m p l = some v) :
    ∃ p' l', m p' l' = some v := by
  induction l generalizing p with
  | nil => simp [scanSearch] at h
  | cons c rest ih =>
    rw [scanSearch] at h
    rcases hm : m p (c :: rest) with _ | w
    · rw [hm] at h; exact ih (some c) h
    · rw [hm] at h; exact ⟨p, c :: rest, hm ▸ h⟩

/-- Search for a whole-word occurrence of one of the listed alternatives,
alternation in listed order (all alternatives consist of word characters). -/
def wordAltAt (alts : List Chars) (prev : Option Char) (l : Chars) : Option Chars :=
  alts.find? fun w =>
    !isWordOpt prev && startsL w l && !isWordOpt ((l.drop w.length).head?)

def wordAltSearch (alts : List Chars) (l : Chars) : Option Chars :=
  scanSearch (wordAltAt alts) none l

theorem wordAltSearch_mem (alts : List Chars) (l : Chars) (w : Chars)
    (h : wordAltSearch alts l = some w) : w ∈ alts := by
  obtain ⟨p', l', h'⟩ := scanSearch_some _ _ _ _ h
  exact List.mem_of_find?_eq_some h'

/-- Join pieces with single spaces, as Python str.join with a space. -/
def joinSp : List Chars → Chars
  | [] => []
  | [x] => x
  | x :: y :: rest => x ++ ' ' :: joinSp (y :: rest)

/-! Named special characters (apostrophes, primes, quotes, em dash). -/

def aposC : Char := Char.ofNat 39
def rsqC : Char := Char.ofNat 8217
def primeC : Char := Char.ofNat 8242
def dprimeC : Char := Char.ofNat 8243
def quotC : Char := Char.ofNat 34
def emDashC : Char := Char.ofNat 8212

/-! Data model: Profile (all five fields optional, unknown = none), chat turn,
and the TDEE result record. Python floats are modelled as rationals. -/

inductive Sex
  | male
  | female
deriving DecidableEq

structure Profile where
  sex : Option Sex
  age : Option ℚ
  weight_kg : Option ℚ
  height_cm : Option ℚ
  activity_factor : Option ℚ
deriving DecidableEq

def emptyProfile : Profile := ⟨none, none, none, none, none⟩

structure ChatMessage where
  role : Chars
  content : Chars
deriving DecidableEq

structure TdeeResult where
  bmr : ℤ
  tdee_low : ℤ
  tdee_high : ℤ
deriving DecidableEq

/-- Python round() with no digits: round half to even, returning an integer.
Rat.floor is used in place of the floor notation so that the function stays
kernel-computable; the two agree by Rat.floor_def. -/
def pyRound (q : ℚ) : ℤ :=
  if q - Rat.floor q < 1/2 then Rat.floor q
  else if q - Rat.floor q > 1/2 then Rat.floor q + 1
  else if Rat.floor q % 2 = 0 then Rat.floor q else Rat.floor q + 1

theorem ratFloor_eq (q : ℚ) : Rat.floor q = ⌊q⌋ := (Rat.floor_def' q).trans Rat.floor_def.symm

/-! Embedding of backend/app/services/profile_logic.py. -/

namespace ProfileLogic

/-- RE_GENDER alternatives, in the order written in the source pattern. -/
def genderAlts : List Chars :=
  [str "male", str "female", str "man", str "woman", str "boy", str "girl", str "m", str "f"]

def genderSearch (l : Chars) : Option Chars := wordAltSearch genderAlts l

/-- The sex mapping applied to the first match in parse_profile_facts. -/
def genderMap (w : Chars) : Sex :=
  if w.head? = some 'm' || containsSub (str "man") w || containsSub (str "boy") w then Sex.male
  else Sex.female

/-- Optional age suffix alternatives of RE_AGE, in preference order. -/
def ageSuffixes : List Chars :=
  [str "yo", str "y/o", str "years", str "year", str "yrs", str "yr"]

/-- Viability of the RE_AGE tail after the two digits: greedy whitespace, an
optional suffix, then a word boundary; true iff some backtracking choice
matches (the captured digits do not depend on the choice). -/
def ageTailOk (rest : Chars) : Bool :=
  (List.range (wsRun rest + 1)).any fun k =>
    let r := rest.drop k
    (ageSuffixes.any fun sfx => startsL sfx r && !isWordOpt ((r.drop sfx.length).head?))
    || (if k = 0 then !isWordOpt r.head? else isWordOpt r.head?)

/-- RE_AGE of profile_logic: word boundary, then 1[0-9] or [2-8][0-9]. -/
def ageMatchAt (prev : Option Char) (l : Chars) : Option Nat :=
  if isWordOpt prev then none
  else
    match l with
    | d1 :: d2 :: rest =>
      if d1 = '1' ∧ isDigitC d2 ∧ ageTailOk rest then some (10 + digitVal d2)
      else if (50 ≤ d1.toNat ∧ d1.toNat ≤ 56) ∧ isDigitC d2 ∧ ageTailOk rest then
        some (10 * digitVal d1 + digitVal d2)
      else none
    | _ => none

def ageSearch (l : Chars) : Option Nat := scanSearch ageMatchAt none l

/-- RE_WEIGHT unit alternatives, in the order written in the source. -/
def weightUnits : List Chars :=
  [str "kg", str "kilograms", str "lbs", str "lb", str "pounds", str "pound"]

/-- After the digits of RE_WEIGHT: greedy whitespace, the unit alternation,
then a word boundary; returns the matched unit. -/
def weightUnitAfter (rest : Chars) : Option Chars :=
  let r := rest.drop (wsRun rest)
  weightUnits.find? fun u => startsL u r && !isWordOpt ((r.drop u.length).head?)

/-- RE_WEIGHT: word boundary, two-or-three digits (greedy), unit. -/
def weightMatchAt (prev : Option Char) (l : Chars) : Option (Nat × Chars) :=
  if isWordOpt prev then none
  else
    let try3 : Option (Nat × Chars) :=
      match l with
      | a :: b :: c :: rest =>
        if isDigitC a ∧ isDigitC b ∧ isDigitC c then
          (weightUnitAfter rest).map fun u =>
            (100 * digitVal a + 10 * digitVal b + digitVal c, u)
        else none
      | _ => none
    let try2 : Option (Nat × Chars) :=
      match l with
      | a :: b :: rest =>
        if isDigitC a ∧ isDigitC b then
          (weightUnitAfter rest).map fun u => (10 * digitVal a + digitVal b, u)
        else none
      | _ => none
    try3 <|> try2

def weightSearch (l : Chars) : Option (Nat × Chars) := scanSearch weightMatchAt none l

/-- One-or-two digit captures in greedy preference order, with the rest. -/
def digits2or1 : Chars → List (Nat × Chars)
  | a :: b :: rest =>
    (if isDigitC a ∧ isDigitC b then [(10 * digitVal a + digitVal b, rest)] else [])
      ++ (if isDigitC a then [(digitVal a, b :: rest)] else [])
  | [a] => if isDigitC a then [(digitVal a, [])] else []
  | [] => []

/-- Two-or-three digit captures in greedy preference order, with the rest. -/
def digits3or2 : Chars → List (Nat × Chars)
  | a :: b :: c :: rest =>
    (if isDigitC a ∧ isDigitC b ∧ isDigitC c then
      [(100 * digitVal a + 10 * digitVal b + digitVal c, rest)] else [])
    ++ (if isDigitC a ∧ isDigitC b then [(10 * digitVal a + digitVal b, c :: rest)] else [])
  | [a, b] => if isDigitC a ∧ isDigitC b then [(10 * digitVal a + digitVal b, [])] else []
  | _ => []

def ftInUnits : List Chars := [str "ft", str "foot", str "feet", [aposC], [primeC]]

def inchMarkers : List Chars := [str "in", str "inch", str "inches", [quotC], [dprimeC]]

/-- Word-boundary requirement right after a matched inch marker. -/
def markerOkAfter (mk after : Chars) : Bool :=
  match mk.getLast? with
  | some c => if isWordC c then !isWordOpt after.head? else isWordOpt after.head?
  | none => false

/-- Tail of RE_HEIGHT_FEET_IN after the inch digits: greedy whitespace, an
optional inch marker, then a word boundary. -/
def ftInTailOk (rest : Chars) : Bool :=
  (List.range (wsRun rest + 1)).any fun k =>
    let r := rest.drop k
    (inchMarkers.any fun mk => startsL mk r && markerOkAfter mk (r.drop mk.length))
    || (if k = 0 then !isWordOpt r.head? else isWordOpt r.head?)

/-- RE_HEIGHT_FEET_IN: feet digits, unit or prime, inch digits, optional
marker; captures (feet, inches). -/
def ftInAt (prev : Option Char) (l : Chars) : Option (Nat × Nat) :=
  if isWordOpt prev then none
  else
    firstSome? (digits2or1 l) fun fc =>
      let rest2 := fc.2.drop (wsRun fc.2)
      match ftInUnits.find? (fun u => startsL u rest2) with
      | none => none
      | some u =>
        let rest3 := rest2.drop u.length
        let rest4 := rest3.drop (wsRun rest3)
        firstSome? (digits2or1 rest4) fun ic =>
          if ftInTailOk ic.2 then some (fc.1, ic.1) else none

/-- Tail of RE_HEIGHT_COMPACT after the inch digits: optional double-quote
marker (no whitespace allowed), then a word boundary. -/
def compactTailOk (rest : Chars) : Bool :=
  ([[quotC], [dprimeC]].any fun mk => startsL mk rest && isWordOpt ((rest.drop 1).head?))
  || !isWordOpt rest.head?

/-- RE_HEIGHT_COMPACT: feet digits, apostrophe or prime, inch digits. -/
def compactAt (prev : Option Char) (l : Chars) : Option (Nat × Nat) :=
  if isWordOpt prev then none
  else
    firstSome? (digits2or1 l) fun fc =>
      let rest2 := fc.2.drop (wsRun fc.2)
      if rest2.head? = some aposC ∨ rest2.head? = some primeC then
        let rest3 := rest2.drop 1
        let rest4 := rest3.drop (wsRun rest3)
        firstSome? (digits2or1 rest4) fun ic =>
          if compactTailOk ic.2 then some (fc.1, ic.1) else none
      else none

/-- RE_HEIGHT_FT_NO_SPACE: feet digits, ft or apostrophe, inch digits. -/
def ftNoSpaceAt (prev : Option Char) (l : Chars) : Option (Nat × Nat) :=
  if isWordOpt prev then none
  else
    firstSome? (digits2or1 l) fun fc =>
      let rest2 := fc.2.drop (wsRun fc.2)
      match [str "ft", [aposC]].find? (fun u => startsL u rest2) with
      | none => none
      | some u =>
        let rest3 := rest2.drop u.length
        let rest4 := rest3.drop (wsRun rest3)
        firstSome? (digits2or1 rest4) fun ic =>
          if !isWordOpt ic.2.head? then some (fc.1, ic.1) else none

/-- RE_HEIGHT_CM: word boundary, two-or-three digits, cm, word boundary. -/
def cmAt (prev : Option Char) (l : Chars) : Option Nat :=
  if isWordOpt prev then none
  else
    firstSome? (digits3or2 l) fun vc =>
      let r := vc.2.drop (wsRun vc.2)
      if startsL (str "cm") r ∧ !isWordOpt ((r.drop 2).head?) then some vc.1 else none

/-- Tail of RE_HEIGHT_METERS after the number: whitespace, m, boundary. -/
def mTailOk (rest : Chars) : Bool :=
  let r := rest.drop (wsRun rest)
  r.head? = some 'm' && !isWordOpt ((r.drop 1).head?)

/-- First two alternatives of RE_HEIGHT_METERS: a fixed leading digit, a dot,
a first fractional digit in a class, and a greedy optional second one. -/
def metersAlt12 (lead : Char) (lo hi : Nat) (l : Chars) : Option ℚ :=
  match l with
  | a :: dot :: c :: rest =>
    if a = lead ∧ dot = '.' ∧ lo ≤ c.toNat ∧ c.toNat ≤ hi then
      match rest with
      | d :: rest2 =>
        if isDigitC d ∧ mTailOk rest2 then
          some ((digitVal lead : ℚ) + ((10 * digitVal c + digitVal d : Nat) : ℚ) / 100)
        else if mTailOk rest then some ((digitVal lead : ℚ) + (digitVal c : ℚ) / 10)
        else none
      | [] => none
    else none
  | _ => none

/-- Third alternative of RE_HEIGHT_METERS: digit dot digit. -/
def metersAlt3 (l : Chars) : Option ℚ :=
  match l with
  | a :: dot :: c :: rest =>
    if isDigitC a ∧ dot = '.' ∧ isDigitC c ∧ mTailOk rest then
      some ((digitVal a : ℚ) + (digitVal c : ℚ) / 10)
    else none
  | _ => none

def metersAt (prev : Option Char) (l : Chars) : Option ℚ :=
  if isWordOpt prev then none
  else (metersAlt12 '1' 51 57 l) <|> (metersAlt12 '2' 48 50 l) <|> metersAlt3 l

/-- Tail of RE_HEIGHT_IN_ONLY: whitespace, inch unit, word boundary. -/
def inUnitOk (rest : Chars) : Bool :=
  let r := rest.drop (wsRun rest)
  [str "in", str "inch", str "inches"].any fun u =>
    startsL u r && !isWordOpt ((r.drop u.length).head?)

/-- RE_HEIGHT_IN_ONLY: 5x, 6x or 70-72, then an inch unit. -/
def inOnlyAt (prev : Option Char) (l : Chars) : Option Nat :=
  if isWordOpt prev then none
  else match l with
  | d1 :: d2 :: rest =>
    if ((d1 = '5' ∨ d1 = '6') ∧ isDigitC d2) ∨ (d1 = '7' ∧ 48 ≤ d2.toNat ∧ d2.toNat ≤ 50) then
      if inUnitOk rest then some (10 * digitVal d1 + digitVal d2) else none
    else none
  | _ => none

/-- Inches-only branch of _extract_height_cm, guarded by 90-250 cm. -/
def heightInBranch (lower : Chars) : Option ℚ :=
  match scanSearch inOnlyAt none lower with
  | some n =>
    if 90 ≤ (n : ℚ) * (254 / 100) ∧ (n : ℚ) * (254 / 100) ≤ 250 then
      some ((n : ℚ) * (254 / 100))
    else none
  | none => none

/-- Meters branch, guarded by 90-250 cm, falling through to inches. -/
def heightMBranch (lower : Chars) : Option ℚ :=
  match scanSearch metersAt none lower with
  | some mtr =>
    if 90 ≤ mtr * 100 ∧ mtr * 100 ≤ 250 then some (mtr * 100) else heightInBranch lower
  | none => heightInBranch lower

/-- Centimeters branch, guarded by 90-250, falling through to meters. -/
def heightCmBranch (lower : Chars) : Option ℚ :=
  match scanSearch cmAt none lower with
  | some n =>
    if 90 ≤ (n : ℚ) ∧ (n : ℚ) ≤ 250 then some ((n : ℚ)) else heightMBranch lower
  | none => heightMBranch lower

/-- Embedding of profile_logic._extract_height_cm: the three feet-inch
regexes first (first successful search wins, validated by 0-11 inches and
3-8 feet), then centimeters, meters and inches-only, each of the latter
guarded by the plausible range 90-250 cm; a guard failure falls through to
the next pattern family. -/
def extract_height_cm (text : Chars) : Option ℚ :=
  match (scanSearch ftInAt none (asciiLower text)) <|> (scanSearch compactAt none (asciiLower text))
      <|> (scanSearch ftNoSpaceAt none (asciiLower text)) with
  | some fi =>
    if 0 ≤ fi.2 ∧ fi.2 < 12 ∧ 3 ≤ fi.1 ∧ fi.1 ≤ 8 then
      some (((fi.1 * 12 + fi.2 : Nat) : ℚ) * (254 / 100))
    else heightCmBranch (asciiLower text)
  | none => heightCmBranch (asciiLower text)

/-- ACTIVITY_FACTORS direct lexical match, dictionary insertion order. -/
def activityDirect (lower : Chars) : Option ℚ :=
  if containsSub (str "sedentary") lower then some (12/10)
  else if containsSub (str "light") lower then some (1375/1000)
  else if containsSub (str "moderate") lower then some (155/100)
  else if containsSub (str "very") lower then some (1725/1000)
  else if containsSub (str "extra") lower then some (19/10)
  else none

def activeJobWords : List Chars :=
  [str "produce", str "warehouse", str "stock", str "stocking", str "retail", str "server",
   str "barista", str "nurse", str "construction", str "lifting boxes", str "on my feet",
   str "on feet", str "walk", str "walking"]

def resistanceTrainingWords : List Chars :=
  [str "lift", str "lifting", str "weights", str "weight training", str "gym", str "resistance"]

def jobHits (low : Chars) : Nat := (activeJobWords.filter (fun w => containsSub w low)).length

def trainHits (low : Chars) : Nat :=
  (resistanceTrainingWords.filter (fun w => containsSub w low)).length

/-- Tail of the weekly-frequency pattern after its leading digit: whitespace,
optional x or times, whitespace, optional a or per, whitespace, week. -/
def freqTail (rest : Chars) : Bool :=
  let r1 := rest.drop (wsRun rest)
  [str "x", str "times", ([] : Chars)].any fun t1 =>
    startsL t1 r1 &&
      (let r2 := r1.drop t1.length
       let r2b := r2.drop (wsRun r2)
       [str "a", str "per", ([] : Chars)].any fun t2 =>
         startsL t2 r2b &&
           (let r3 := r2b.drop t2.length
            startsL (str "week") (r3.drop (wsRun r3))))

def freqAt (_prev : Option Char) (l : Chars) : Option Unit :=
  match l with
  | c :: rest => if (c = '3' ∨ c = '4' ∨ c = '5') ∧ freqTail rest then some () else none
  | [] => none

def freqSearch (low : Chars) : Bool := (scanSearch freqAt none low).isSome

/-- Embedding of profile_logic._infer_activity_factor. -/
def infer_activity_factor (text : Chars) : Option ℚ :=
  let low := asciiLower text
  if jobHits low ≠ 0 ∧ trainHits low ≠ 0 then some (155/100)
  else if jobHits low ≠ 0 then
    if containsSub (str "construction") low || containsSub (str "warehouse") low then
      some (155/100)
    else some (1375/1000)
  else if trainHits low ≠ 0 then
    if freqSearch low then some (1375/1000) else some (12/10)
  else none

/-- Embedding of profile_logic.parse_profile_facts. -/
def parse_profile_facts (message : Chars) : Profile :=
  let lower := asciiLower message
  let sex := (genderSearch lower).map genderMap
  let age := (ageSearch lower).map (fun n : ℕ => (n : ℚ))
  let weight := (weightSearch lower).map fun vu =>
    if containsSub (str "kg") vu.2 then (vu.1 : ℚ) else (vu.1 : ℚ) * (4536 / 10000)
  let height := extract_height_cm lower
  let act := match activityDirect lower with
    | some f => some f
    | none => infer_activity_factor message
  ⟨sex, age, weight, height, act⟩

/-- Per-field merge used by rebuild_profile: a newly detected value (some)
overwrites, an undetected one (none) keeps the previous value. -/
def mergeFacts (p q : Profile) : Profile :=
  ⟨match q.sex with | some v => some v | none => p.sex,
   match q.age with | some v => some v | none => p.age,
   match q.weight_kg with | some v => some v | none => p.weight_kg,
   match q.height_cm with | some v => some v | none => p.height_cm,
   match q.activity_factor with | some v => some v | none => p.activity_factor⟩

/-- Embedding of profile_logic.rebuild_profile: fold over the history,
skipping turns whose role is not user. -/
def rebuild_profile (history : List ChatMessage) : Profile :=
  history.foldl
    (fun p t => if t.role = str "user" then mergeFacts p (parse_profile_facts t.content) else p)
    emptyProfile

/-- Mifflin-St Jeor BMR as written in profile_logic.compute_tdee. -/
def mifflin (s : Sex) (weight height age : ℚ) : ℚ :=
  10 * weight + (625/100) * height - 5 * age + (if s = Sex.male then 5 else -161)

/-- Embedding of profile_logic.compute_tdee; the source raises ValueError
when a required field is missing (None, empty or zero), modelled as none. -/
def compute_tdee (p : Profile) : Option TdeeResult :=
  match p.sex, p.age, p.weight_kg, p.height_cm, p.activity_factor with
  | some s, some a, some w, some h, some act =>
    if a = 0 ∨ w = 0 ∨ h = 0 ∨ act = 0 then none
    else
      let bmr := mifflin s w h a
      let tdee := bmr * act
      some ⟨pyRound bmr, pyRound (tdee * (95/100)), pyRound (tdee * (105/100))⟩
  | _, _, _, _, _ => none

end ProfileLogic

/-! Embedding of backend/app/services/rag_service.py (RAGService).  Regexes
that are written identically in both source files (RE_GENDER, RE_WEIGHT,
RE_HEIGHT_CM and the shared vocabulary lists) reuse the ProfileLogic
matchers. -/

namespace RagService

/-- RE_AGE of rag_service: any two digits, suffix tail as in profile_logic;
the plausibility guard 10 < age < 90 is applied afterwards in the parser. -/
def ageMatchAt (prev : Option Char) (l : Chars) : Option Nat :=
  if isWordOpt prev then none
  else match l with
  | d1 :: d2 :: rest =>
    if isDigitC d1 ∧ isDigitC d2 ∧ ProfileLogic.ageTailOk rest then
      some (10 * digitVal d1 + digitVal d2)
    else none
  | _ => none

/-- Leading phrase alternatives of the first fallback weight pattern, in the
order written in the source. -/
def weightPhrases : List Chars :=
  [str "i weigh", str "i am weighing", str "my weight is", str "my current weight is",
   str "current weight is", str "weight is", str "weight:", str "weighing", str "weight="]

/-- Unit match of the fallback weight patterns (no trailing boundary). -/
def altWeightUnit (rest : Chars) : Option Chars :=
  let r := rest.drop (wsRun rest)
  ProfileLogic.weightUnits.find? fun u => startsL u r

/-- First fallback weight pattern: phrase, whitespace, digits, unit. -/
def altWeightAAt (_prev : Option Char) (l : Chars) : Option (Nat × Chars) :=
  firstSome? weightPhrases fun ph =>
    if startsL ph l then
      let r1 := l.drop ph.length
      let r2 := r1.drop (wsRun r1)
      firstSome? (ProfileLogic.digits3or2 r2) fun vc =>
        (altWeightUnit vc.2).map fun u => (vc.1, u)
    else none

/-- Second fallback weight pattern: digits, unit, then is-my-weight or
weight. -/
def altWeightBAt (_prev : Option Char) (l : Chars) : Option (Nat × Chars) :=
  firstSome? (ProfileLogic.digits3or2 l) fun vc =>
    let r1 := vc.2.drop (wsRun vc.2)
    firstSome? ProfileLogic.weightUnits fun u =>
      if startsL u r1 then
        let r2 := r1.drop u.length
        let r3 := r2.drop (wsRun r2)
        if startsL (str "is my weight") r3 ∨ startsL (str "weight") r3 then some (vc.1, u)
        else none
      else none

def altWeightSearch (lower : Chars) : Option (Nat × Chars) :=
  (scanSearch altWeightAAt none lower) <|> (scanSearch altWeightBAt none lower)

/-- RE_HEIGHT_FT_IN of rag_service: one digit, apostrophe variants, one or
two digits; no boundaries, no guards. -/
def ftInRagAt (_prev : Option Char) (l : Chars) : Option (Nat × Nat) :=
  match l with
  | a :: rest =>
    if isDigitC a then
      let r1 := rest.drop (wsRun rest)
      if r1.head? = some rsqC ∨ r1.head? = some aposC then
        let r2 := r1.drop 1
        let r3 := r2.drop (wsRun r2)
        firstSome? (ProfileLogic.digits2or1 r3) fun ic => some (digitVal a, ic.1)
      else none
    else none
  | [] => none

/-- RE_HEIGHT_FT_IN_WORDS: one digit, ft or foot or feet, one or two digits,
optional trailing inch unit (which always succeeds, so it is dropped). -/
def ftInWordsRagAt (_prev : Option Char) (l : Chars) : Option (Nat × Nat) :=
  match l with
  | a :: rest =>
    if isDigitC a then
      let r1 := rest.drop (wsRun rest)
      match [str "ft", str "foot", str "feet"].find? (fun u => startsL u r1) with
      | some u =>
        let r2 := r1.drop u.length
        let r3 := r2.drop (wsRun r2)
        firstSome? (ProfileLogic.digits2or1 r3) fun ic => some (digitVal a, ic.1)
      | none => none
    else none
  | [] => none

/-- EXTRA_HEIGHT_FT_IN_LOOSE: digit, at least one whitespace, one or two
digits followed by a word boundary. -/
def looseRagAt (_prev : Option Char) (l : Chars) : Option (Nat × Nat) :=
  match l with
  | a :: rest =>
    if isDigitC a ∧ wsRun rest ≠ 0 then
      let r := rest.drop (wsRun rest)
      firstSome? (ProfileLogic.digits2or1 r) fun ic =>
        if !isWordOpt ic.2.head? then some (digitVal a, ic.1) else none
    else none
  | [] => none

/-- RE_HEIGHT_IN of rag_service: word boundary, two digits, inch unit. -/
def inRagAt (prev : Option Char) (l : Chars) : Option Nat :=
  if isWordOpt prev then none
  else match l with
  | d1 :: d2 :: rest =>
    if isDigitC d1 ∧ isDigitC d2 ∧ ProfileLogic.inUnitOk rest then
      some (10 * digitVal d1 + digitVal d2)
    else none
  | _ => none

/-- Height extraction of rag_service._parse_profile_facts: feet-inch forms
(with the loose form accepted only when inches are at most 11), then raw
centimeters, then inches, with no plausibility filtering at all. -/
def heightRag (lower : Chars) : Option ℚ :=
  let h0 := (scanSearch ftInRagAt none lower) <|> (scanSearch ftInWordsRagAt none lower)
  let h := match h0 with
    | some fi => some fi
    | none =>
      match scanSearch looseRagAt none lower with
      | some fi => if fi.2 ≤ 11 then some fi else none
      | none => none
  match h with
  | some fi => some (((fi.1 * 12 + fi.2 : Nat) : ℚ) * (254/100))
  | none =>
    match scanSearch ProfileLogic.cmAt none lower with
    | some n => some ((n : ℚ))
    | none =>
      match scanSearch inRagAt none lower with
      | some n => some ((n : ℚ) * (254/100))
      | none => none

/-- Generic count of non-overlapping matches, as Python re.findall; the
matcher returns the length of its match for advancement.  Fuelled (the
wrapper passes the input length) so applications kernel-reduce. -/
def findallCountGo (m : Option Char → Chars → Option Nat) : Nat → Option Char → Chars → Nat
  | _, _, [] => 0
  | 0, _, _ => 0
  | fuel + 1, prev, c :: rest =>
    match m prev (c :: rest) with
    | some len =>
      1 + findallCountGo m fuel (((c :: rest).take (max len 1)).getLast?)
        ((c :: rest).drop (max len 1))
    | none => findallCountGo m fuel (some c) rest

def findallCount (m : Option Char → Chars → Option Nat) (prev : Option Char) (l : Chars) : Nat :=
  findallCountGo m l.length prev l

/-- The days pattern of rag_service._infer_activity_factor, three word-bounded
alternatives; returns the length of the match. -/
def daysAt (prev : Option Char) (l : Chars) : Option Nat :=
  if isWordOpt prev then none
  else match l with
  | d :: rest =>
    if isDigitC d then
      let k := wsRun rest
      let r := rest.drop k
      let altA : Option Nat :=
        firstSome? [str "days", str "day"] fun w =>
          if startsL w r ∧ !isWordOpt ((r.drop w.length).head?) then some (1 + k + w.length)
          else none
      let altB : Option Nat :=
        if startsL (str "x") r then
          let r2 := r.drop 1
          let k2 := wsRun r2
          let r3 := r2.drop k2
          if startsL (str "per") r3 then
            let r4 := r3.drop 3
            let k3 := wsRun r4
            let r5 := r4.drop k3
            if startsL (str "week") r5 ∧ !isWordOpt ((r5.drop 4).head?) then
              some (1 + k + 1 + k2 + 3 + k3 + 4)
            else none
          else none
        else none
      let altC : Option Nat :=
        if r.head? = some '/' then
          let r2 := r.drop 1
          let k2 := wsRun r2
          let r3 := r2.drop k2
          if r3.head? = some '7' ∧ !isWordOpt ((r3.drop 1).head?) then
            some (1 + k + 1 + k2 + 1)
          else none
        else none
      altA <|> altB <|> altC
    else none
  | [] => none

/-- The hours pattern: word boundary, one or two digits, hour or hours. -/
def hoursAt (prev : Option Char) (l : Chars) : Option Nat :=
  if isWordOpt prev then none
  else
    firstSome? (ProfileLogic.digits2or1 l) fun vc =>
      let dlen := l.length - vc.2.length
      let k := wsRun vc.2
      let r := vc.2.drop k
      firstSome? [str "hours", str "hour"] fun w =>
        if startsL w r ∧ !isWordOpt ((r.drop w.length).head?) then some (dlen + k + w.length)
        else none

/-- Weekly-frequency pattern of rag_service (word boundary on the 3 only). -/
def freqRagAt (prev : Option Char) (l : Chars) : Option Unit :=
  match l with
  | c :: rest =>
    if ((c = '3' ∧ !isWordOpt prev) ∨ c = '4' ∨ c = '5') ∧ ProfileLogic.freqTail rest then
      some ()
    else none
  | [] => none

def freqSearchRag (low : Chars) : Bool := (scanSearch freqRagAt none low).isSome

/-- Embedding of RAGService._infer_activity_factor. -/
def infer_activity_factor (text : Chars) : Option ℚ :=
  let low := asciiLower text
  let job := ProfileLogic.jobHits low
  let train := ProfileLogic.trainHits low
  if job = 0 ∧ train = 0 then none
  else if job ≠ 0 ∧ train ≠ 0 then some (155/100)
  else if job ≠ 0 then
    if containsSub (str "construction") low ∨ containsSub (str "warehouse") low
        ∨ (2 ≤ findallCount hoursAt none low ∧ 1 ≤ findallCount daysAt none low) then
      some (155/100)
    else some (1375/1000)
  else
    if freqSearchRag low then some (1375/1000) else some (12/10)

/-- Embedding of RAGService._parse_profile_facts. -/
def parse_profile_facts (text : Chars) : Profile :=
  let lower := asciiLower text
  let sex := (ProfileLogic.genderSearch lower).map ProfileLogic.genderMap
  let age := (scanSearch ageMatchAt none lower).bind fun n =>
    if 10 < n ∧ n < 90 then some ((n : ℚ)) else none
  let weight :=
    match ProfileLogic.weightSearch lower with
    | some vu =>
      some (if containsSub (str "kg") vu.2 then (vu.1 : ℚ) else (vu.1 : ℚ) * (4536/10000))
    | none =>
      (altWeightSearch lower).map fun vu =>
        if containsSub (str "kg") vu.2 then (vu.1 : ℚ) else (vu.1 : ℚ) * (4536/10000)
  let height := heightRag lower
  let act := match ProfileLogic.activityDirect lower with
    | some f => some f
    | none => infer_activity_factor text
  ⟨sex, age, weight, height, act⟩

/-- Embedding of RAGService._rebuild_profile. -/
def rebuild_profile (history : List ChatMessage) : Profile :=
  history.foldl
    (fun p t =>
      if t.role = str "user" then ProfileLogic.mergeFacts p (parse_profile_facts t.content)
      else p)
    emptyProfile

/-- The possible values of the intent field of a chat response. -/
inductive Intent
  | recall
  | tdee
  | general
  | protein
  | none
deriving DecidableEq

inductive Len
  | short
  | medium
  | long
deriving DecidableEq

def tdeeKeywords : List Chars :=
  [str "tdee", str "maintenance", str "calorie", str "calories", str "bmr",
   str "burn each day", str "daily burn"]

/-- Match a sequence of literal tokens separated by runs of whitespace. -/
def seqWsAt (tokens : List Chars) (l : Chars) : Bool :=
  match tokens with
  | [] => true
  | [t] => startsL t l
  | t :: rest =>
    startsL t l &&
      (let r := l.drop t.length
       let k := wsRun r
       (k != 0) && seqWsAt rest (r.drop k))

def phraseWsAt (tokens : List Chars) (_prev : Option Char) (l : Chars) : Option Unit :=
  if seqWsAt tokens l then some () else none

def phraseWsSearch (tokens : List Chars) (l : Chars) : Bool :=
  (scanSearch (phraseWsAt tokens) none l).isSome

def startTdeeTriggers (low : Chars) : Bool :=
  phraseWsSearch [str "what", str "should", str "i", str "start"] low
  || phraseWsSearch [str "where", str "do", str "i", str "start"] low
  || phraseWsSearch [str "how", str "do", str "i", str "start"] low

/-- Embedding of RAGService._is_tdee_intent. -/
def is_tdee_intent (msg : Chars) : Bool :=
  let low := asciiLower msg
  tdeeKeywords.any (fun kw => containsSub kw low) || startTdeeTriggers low

/-- Embedding of RAGService._detect_recall; fields are returned by their
source string names, patterns tried in dictionary insertion order. -/
def detect_recall (last_user : Chars) : Option Chars :=
  let lower := asciiLower last_user
  if phraseWsSearch [str "my", str "height"] lower
      || phraseWsSearch [str "how", str "tall", str "am", str "i"] lower then
    some (str "height_cm")
  else if phraseWsSearch [str "my", str "weight"] lower
      || phraseWsSearch [str "how", str "much", str "do", str "i", str "weigh"] lower then
    some (str "weight_kg")
  else if phraseWsSearch [str "my", str "age"] lower
      || phraseWsSearch [str "how", str "old", str "am", str "i"] lower then
    some (str "age")
  else if phraseWsSearch [str "my", str "sex"] lower
      || phraseWsSearch [str "my", str "biological", str "sex"] lower then
    some (str "sex")
  else if phraseWsSearch [str "my", str "activity"] lower
      || phraseWsSearch [str "activity", str "level"] lower then
    some (str "activity_factor")
  else none

/-- Embedding of RAGService._is_safety_topic (the SAFETY_TRIGGER regex is a
plain alternation of literals, so truthiness is substring membership). -/
def is_safety_topic (msg : Chars) : Bool :=
  let low := asciiLower msg
  [str "safe", str "safety", str "injury", str "injuries", str "hurt", str "pain",
   str "form", str "medical", str "doctor", str "physician", str "therap", str "rehab"].any
    fun w => containsSub w low

/-- Within one line: a bmr occurrence with daily burn somewhere after it. -/
def bmrThenDaily : Chars → Bool
  | [] => false
  | c :: rest =>
    (startsL (str "bmr") (c :: rest) && containsSub (str "daily burn") ((c :: rest).drop 3))
    || bmrThenDaily rest

/-- Truthiness of the delivered-TDEE regex of RAGService._unresolved_tdee
(dot does not match newlines, so the first branch stays within one line). -/
def deliveredTdee (content : Chars) : Bool :=
  let low := asciiLower content
  (splitLit (str "\n") low).any bmrThenDaily || containsSub (str "daily burn about") low

def unresolvedGo : Bool → List ChatMessage → Bool
  | saw, [] => saw
  | saw, t :: rest =>
    let saw2 := if t.role = str "user" && is_tdee_intent t.content then true else saw
    if saw2 && t.role = str "assistant" && deliveredTdee t.content then false
    else unresolvedGo saw2 rest

/-- Embedding of RAGService._unresolved_tdee. -/
def unresolved_tdee (history : List ChatMessage) : Bool := unresolvedGo false history

/-- Embedding of RAGService._is_greeting_or_ack. -/
def is_greeting_or_ack (message : Chars) : Option Chars :=
  let m := asciiLower (stripL message)
  if m = str "hi" ∨ m = str "hey" ∨ m = str "hello" then some (str "Hi! How can I help?")
  else if m = str "thanks" ∨ m = str "thank you" ∨ m = str "ty" then
    some (str "You" ++ [aposC] ++ str "re welcome!")
  else if m = str "ok" ∨ m = str "okay" ∨ m = str "got it" ∨ m = str "cool" ∨ m = str "great"
    then some (str "Sounds good.")
  else none

/-- Embedding of RAGService._decide_response_length. -/
def decide_response_length (intent : Intent) (user_message : Chars)
    (history : List ChatMessage) : Len :=
  let msg := asciiLower (stripL user_message)
  if msg = str "ok" ∨ msg = str "okay" ∨ msg = str "thanks" ∨ msg = str "thank you"
      ∨ msg = str "got it" ∨ msg = str "cool" ∨ msg = str "great" ∨ msg.length ≤ 8 then
    Len.short
  else if (detect_recall user_message).isSome then Len.short
  else if is_safety_topic user_message then Len.medium
  else if intent = Intent.tdee then
    (if unresolved_tdee history then Len.short else Len.medium)
  else
    let simple_q := [str "what is", str "how do i", str "how to", str "when should i"].any
      fun w => containsSub w msg
    if containsSub (str "exercise") msg || containsSub (str "exercises") msg then Len.medium
    else if msg.length ≤ 60 ∧ (containsSub (str "?") msg || simple_q) then Len.short
    else if [str "workout", str "routine", str "plan", str "program", str "split"].any
        (fun w => containsSub w msg) then Len.long
    else if 2 ≤ ([str "diet", str "nutrition", str "cardio", str "strength", str "protein",
        str "calorie"].filter (fun w => containsSub w msg)).length then Len.medium
    else Len.medium

def proteinPatterns : List Chars :=
  [str "how much protein", str "protein should i eat", str "protein do i need",
   str "protein goal", str "protein intake", str "protein per day"]

/-- The five profile fields in canonical order. -/
inductive Field
  | sex
  | age
  | weight_kg
  | height_cm
  | activity_factor
deriving DecidableEq

def FIELD_ORDER : List Field :=
  [Field.sex, Field.age, Field.weight_kg, Field.height_cm, Field.activity_factor]

/-- The ASK_PATTERNS keyword of each field. -/
def askKeyword : Field → Chars
  | Field.sex => str "sex"
  | Field.age => str "age"
  | Field.weight_kg => str "weight"
  | Field.height_cm => str "height"
  | Field.activity_factor => str "activity"

/-- An assistant message asks for a field iff it matches the field keyword
(case-insensitively) and contains a question mark. -/
def asksFor (f : Field) (content : Chars) : Bool :=
  containsSub (askKeyword f) (asciiLower content) && containsSub (str "?") content

def alreadyAskedGo (f : Field) : Nat → List ChatMessage → Bool
  | _, [] => false
  | scanned, t :: rest =>
    if scanned > 30 then false
    else if t.role = str "assistant" then
      if asksFor f t.content then true else alreadyAskedGo f (scanned + 1) rest
    else alreadyAskedGo f scanned rest

/-- Embedding of RAGService._already_asked: scan the history backwards,
giving up after 31 assistant turns. -/
def already_asked (f : Field) (history : List ChatMessage) : Bool :=
  alreadyAskedGo f 0 history.reverse

/-- The clarifying-question selection loop of the TDEE branch of
get_ai_response: the first essential field that is missing and has not
already been asked. -/
def tdeeAskField (merged_missing : List Field) (history : List ChatMessage) : Option Field :=
  FIELD_ORDER.find? fun f => merged_missing.contains f && !already_asked f history

def truthy : Option ℚ → Bool
  | Option.none => false
  | some v => v ≠ 0

/-- Embedding of RAGService._profile_missing (fields with falsy values). -/
def profileMissing (p : Profile) : List Field :=
  FIELD_ORDER.filter fun f =>
    match f with
    | Field.sex => p.sex = Option.none
    | Field.age => !truthy p.age
    | Field.weight_kg => !truthy p.weight_kg
    | Field.height_cm => !truthy p.height_cm
    | Field.activity_factor => !truthy p.activity_factor

/-- The intent value computed and returned by RAGService.get_ai_response:
protein interception first, then the no-user-turn case, then the derived
tdee-or-general classification, the greeting short-circuit (which returns
the classified intent), the recall check, and finally the tdee and general
branches, all of whose exits return the classified intent. -/
def responseIntent (history : List ChatMessage) : Intent :=
  let profile := rebuild_profile history
  let userTurns := history.filter fun t => t.role = str "user"
  match userTurns.getLast? with
  | Option.none => Intent.none
  | some lastTurn =>
    let last_user := lastTurn.content
    let lastLower := asciiLower last_user
    if proteinPatterns.any (fun p => containsSub p lastLower) && truthy profile.weight_kg then
      Intent.protein
    else
      let intent := if is_tdee_intent last_user then Intent.tdee
        else if unresolved_tdee history then Intent.tdee
        else Intent.general
      let desired := decide_response_length intent last_user history
      if desired = Len.short ∧ (is_greeting_or_ack last_user).isSome then intent
      else if (detect_recall last_user).isSome then Intent.recall
      else intent

/-- CLICHE_PATTERNS entry 1: a word-bounded literal phrase. -/
def phraseBndAt (phrase : Chars) (prev : Option Char) (l : Chars) : Option Unit :=
  if !isWordOpt prev && startsL phrase l && !isWordOpt ((l.drop phrase.length).head?) then some ()
  else none

/-- Scan for a word-bounded stop with no sentence punctuation crossed. -/
def stopAfterScan : Option Char → Chars → Bool
  | _, [] => false
  | prev, c :: rest =>
    (!isWordOpt prev && startsL (str "stop") (c :: rest)
      && !isWordOpt (((c :: rest).drop 4).head?))
    || (if c = '.' ∨ c = '?' ∨ c = '!' then false else stopAfterScan (some c) rest)

/-- CLICHE_PATTERNS entry 2: if (you )?feel( any)? pain ... stop. -/
def cliche2At (prev : Option Char) (l : Chars) : Option Unit :=
  if isWordOpt prev then none
  else if startsL (str "if ") l then
    let r1 := l.drop 3
    firstSome? [str "you ", ([] : Chars)] fun o1 =>
      if startsL o1 r1 then
        let r2 := r1.drop o1.length
        if startsL (str "feel") r2 then
          let r3 := r2.drop 4
          firstSome? [str " any", ([] : Chars)] fun o2 =>
            if startsL o2 r3 then
              let r4 := r3.drop o2.length
              if startsL (str " pain") r4 then
                if stopAfterScan (some 'n') (r4.drop 5) then some () else none
              else none
            else none
        else none
      else none
  else none

/-- CLICHE_PATTERNS entry 3: stop if (you )?feel pain. -/
def cliche3At (prev : Option Char) (l : Chars) : Option Unit :=
  if isWordOpt prev then none
  else if startsL (str "stop if ") l then
    let r1 := l.drop 8
    firstSome? [str "you ", ([] : Chars)] fun o1 =>
      if startsL o1 r1 then
        let r2 := r1.drop o1.length
        if startsL (str "feel pain") r2 ∧ !isWordOpt ((r2.drop 9).head?) then some () else none
      else none
  else none

/-- CLICHE_PATTERNS entry 4: talk to (a|your) doctor. -/
def cliche4At (prev : Option Char) (l : Chars) : Option Unit :=
  if isWordOpt prev then none
  else if startsL (str "talk to ") l then
    let r1 := l.drop 8
    firstSome? [str "a", str "your"] fun o =>
      if startsL o r1 then
        let r2 := r1.drop o.length
        if startsL (str " doctor") r2 ∧ !isWordOpt ((r2.drop 7).head?) then some () else none
      else none
  else none

/-- A sentence contains one of the blocklisted cliche phrases. -/
def hasCliche (sent : Chars) : Bool :=
  let low := asciiLower sent
  (scanSearch (phraseBndAt (str "listen to your body")) none low).isSome
  || (scanSearch cliche2At none low).isSome
  || (scanSearch cliche3At none low).isSome
  || (scanSearch cliche4At none low).isSome

/-- Python re.split keeping the single-character sentence punctuation, so
the result alternates text segments and punctuation marks. -/
def splitKeepPunct : Chars → Chars → List Chars
  | acc, [] => [acc.reverse]
  | acc, c :: rest =>
    if c = '.' ∨ c = '!' ∨ c = '?' then acc.reverse :: [c] :: splitKeepPunct [] rest
    else splitKeepPunct (c :: acc) rest

/-- The rebuilding loop of _sanitize_cliches: keep each non-empty,
non-cliche sentence together with its punctuation mark. -/
def rebuiltSentences : List Chars → List Chars
  | [] => []
  | [t] =>
    let sent := stripL t
    if sent = [] then [] else if hasCliche sent then [] else [sent]
  | t :: p :: rest =>
    let sent := stripL t
    (if sent = [] then [] else if hasCliche sent then [] else [sent ++ p])
      ++ rebuiltSentences rest

def cleanedReply (reply : Chars) : Chars :=
  stripL (joinSp ((rebuiltSentences (splitKeepPunct [] reply)).map stripL))

/-- Embedding of RAGService._sanitize_cliches: keep the reply untouched for
safety topics, otherwise rebuild it from its non-cliche sentences, falling
back to the original reply when nothing remains. -/
def sanitize_cliches (user_message reply : Chars) : Chars :=
  if is_safety_topic user_message then reply
  else if cleanedReply reply = [] then reply else cleanedReply reply

end RagService

/-! Embedding of backend/app/services/rag_index.py. -/

namespace RagIndex

structure Document where
  path : Chars
  text : Chars
deriving DecidableEq

structure Chunk where
  doc_path : Chars
  text : Chars
  idx : Nat
deriving DecidableEq

def CHUNK_SIZE : Nat := 900
def CHUNK_OVERLAP : Nat := 150
def MAX_CHUNK_HARD : Nat := 1200

def isUpperOpt : Option Char → Bool
  | none => false
  | some c => 65 ≤ c.toNat && c.toNat ≤ 90

/-- Python re.split on the sentence-boundary pattern: a whitespace run
preceded by sentence punctuation and followed by a capital letter.
Fuelled (the wrapper passes the block length) so applications
kernel-reduce. -/
def sentSplitGo : Nat → Chars → Option Char → Chars → List Chars
  | _, acc, _, [] => [acc.reverse]
  | 0, acc, _, l => [acc.reverse ++ l]
  | fuel + 1, acc, prev, c :: rest =>
    if isWs c ∧ (prev = some '.' ∨ prev = some '!' ∨ prev = some '?')
        ∧ isUpperOpt (((c :: rest).drop (wsRun (c :: rest))).head?) then
      acc.reverse ::
        sentSplitGo fuel [] ((c :: rest.take (wsRun rest)).getLast?) (rest.drop (wsRun rest))
    else sentSplitGo fuel (c :: acc) (some c) rest

def sentSplit (block : Chars) : List Chars := sentSplitGo block.length [] none block

/-- Paragraph split of _chunk_docs: blank-line separation, stripped,
empties dropped. -/
def paragraphs (raw : Chars) : List Chars :=
  ((splitLit (str "\n\n") raw).map stripL).filter fun b => b ≠ []

/-- Greedy sentence packing of an over-long paragraph. -/
def packGo (buf : Chars) : List Chars → List Chars
  | [] => if buf ≠ [] then [buf] else []
  | s0 :: rest =>
    let s := stripL s0
    if s = [] then packGo buf rest
    else if buf ≠ [] ∧ CHUNK_SIZE < buf.length + 1 + s.length then buf :: packGo s rest
    else packGo (stripL (buf ++ ' ' :: s)) rest

/-- The per-document part list before re-packing. -/
def docParts (raw : Chars) : List Chars :=
  (paragraphs raw).foldl
    (fun acc block =>
      if block.length ≤ CHUNK_SIZE then acc ++ [block]
      else acc ++ packGo [] (sentSplit block))
    []

/-- Re-packing with overlap: concatenate parts while within CHUNK_SIZE;
on overflow emit and seed the next chunk with the trailing overlap. -/
def repackGo (current : Chars) : List Chars → List Chars
  | [] => if current ≠ [] then [current] else []
  | p :: rest =>
    if current = [] then repackGo p rest
    else if current.length + 2 + p.length ≤ CHUNK_SIZE then
      repackGo (current ++ '\n' :: p) rest
    else
      let ov := current.drop (current.length - CHUNK_OVERLAP)
      current :: repackGo (ov ++ '\n' :: p) rest

def repack (parts : List Chars) : List Chars := repackGo [] parts

/-- A heading match at a line start: the given hashes, at least one
whitespace character (greedy, backtracking), then a non-empty capture up to
the end of the line. -/
def headingAt (hashes : Chars) (l : Chars) : Option Chars :=
  if startsL hashes l then
    let rest := l.drop hashes.length
    let maxk := wsRun rest
    firstSome? ((List.range maxk).map fun i => maxk - i) fun k =>
      let cap := (rest.drop k).takeWhile fun c => c ≠ '\n'
      if cap ≠ [] then some cap else none
  else none

/-- Multiline search at line starts (re.M with a caret anchor). -/
def lineSearchGo {α : Type} (m : Chars → Option α) : Chars → Option α
  | [] => none
  | c :: rest =>
    if c = '\n' then
      match m rest with
      | some v => some v
      | none => lineSearchGo m rest
    else lineSearchGo m rest

def lineSearch {α : Type} (m : Chars → Option α) (l : Chars) : Option α :=
  match m l with
  | some v => some v
  | none => lineSearchGo m l

def baseName (p : Chars) : Chars := (p.reverse.takeWhile fun c => c ≠ '/').reverse

/-- pathlib stem: the base name without its final suffix. -/
def stem (p : Chars) : Chars :=
  let b := baseName p
  let r := b.reverse
  match r.findIdx? fun c => c = '.' with
  | Option.none => b
  | some i => if i = 0 ∨ i = r.length - 1 then b else b.take (b.length - 1 - i)

def docTitle (d : Document) : Chars :=
  match lineSearch (headingAt (str "#")) d.text with
  | some t => stripL t
  | Option.none => stem d.path

def docSubtitle (d : Document) : Option Chars :=
  (lineSearch (headingAt (str "##")) d.text).map stripL

/-- The synthesized provenance header: title, and an em-dash joined
subtitle when one is present and non-empty. -/
def docHeader (d : Document) : Chars :=
  let title := docTitle d
  match docSubtitle d with
  | some sub => if sub ≠ [] then title ++ ' ' :: emDashC :: ' ' :: sub else title
  | Option.none => title

/-- Chunks of one document: assembled parts, hard truncation at
MAX_CHUNK_HARD, then the header prefix. -/
def chunkDoc (d : Document) : List Chunk :=
  if d.text = [] then []
  else
    let assembled := repack (docParts d.text)
    let header := docHeader d
    assembled.enum.map fun it =>
      let txt := if MAX_CHUNK_HARD < it.2.length then it.2.take MAX_CHUNK_HARD else it.2
      let t := stripL (header ++ '\n' :: txt)
      ⟨d.path, stripL t, it.1⟩

/-- De-duplication by the first 400 characters, keeping first occurrences. -/
def dedupGo (seen : List Chars) : List Chunk → List Chunk
  | [] => []
  | c :: rest =>
    let key := c.text.take 400
    if seen.contains key then dedupGo seen rest
    else c :: dedupGo (key :: seen) rest

/-- Embedding of RAGIndex._chunk_docs. -/
def chunk_docs (docs : List Document) : List Chunk :=
  dedupGo [] (docs.foldl (fun acc d => acc ++ chunkDoc d) [])

structure RagState where
  docs : List Document
  chunks : List Chunk
  ready : Bool
  built : Bool
deriving DecidableEq

/-- Embedding of RAGIndex.build with the TF-IDF backend available (the
first backend tried; fitting the vectorizer is external and succeeds, and
it sets the model and embeddings together with the ready flag).  The
transient building re-entrancy guard is invisible sequentially. -/
def build (s : RagState) : RagState :=
  if s.built then s
  else if s.docs = [] then s
  else if chunk_docs s.docs = [] then { s with chunks := chunk_docs s.docs }
  else { s with chunks := chunk_docs s.docs, ready := true, built := true }

structure Retrieved where
  text : Chars
  source : Chars
deriving DecidableEq

def SYNONYMS : List (Chars × List Chars) :=
  [(str "tdee", [str "maintenance calories", str "daily burn"]),
   (str "cut", [str "deficit", str "weight loss"]),
   (str "bulk", [str "surplus", str "gain muscle", str "hypertrophy"]),
   (str "protein", [str "protein intake", str "macros"]),
   (str "workout", [str "routine", str "program", str "plan"]),
   (str "cardio", [str "aerobic", str "conditioning"])]

/-- Embedding of _expand_query. -/
def expand_query (q : Chars) : Chars :=
  let ql := asciiLower q
  let extra := SYNONYMS.foldl (fun acc kv => if containsSub kv.1 ql then acc ++ kv.2 else acc) []
  if extra = [] then q else q ++ ' ' :: joinSp extra

/-- The result-assembly loop of retrieve: deduplicate indices, skip
out-of-range ones, map to text and source file name. -/
def collectResults (chunks : List Chunk) : List Nat → List Nat → List Retrieved
  | _, [] => []
  | seen, i :: rest =>
    if seen.contains i ∨ chunks.length ≤ i then collectResults chunks seen rest
    else
      match chunks.get? i with
      | some ch => ⟨ch.text, baseName ch.doc_path⟩ :: collectResults chunks (i :: seen) rest
      | Option.none => collectResults chunks (i :: seen) rest

/-- Descending insertion by the (score, index) pair, as the Python reverse
sort of the scored tuple list. -/
def insertDesc (x : (Nat × Nat) × Chunk) :
    List ((Nat × Nat) × Chunk) → List ((Nat × Nat) × Chunk)
  | [] => [x]
  | y :: t =>
    if x.1.1 > y.1.1 ∨ (x.1.1 = y.1.1 ∧ x.1.2 ≥ y.1.2) then x :: y :: t
    else y :: insertDesc x t

def sortDesc (l : List ((Nat × Nat) × Chunk)) : List ((Nat × Nat) × Chunk) :=
  l.foldr insertDesc []

/-- Embedding of RAGIndex._keyword_fallback: query words longer than two
characters, chunks scored by summed substring occurrence counts, non-zero
scores sorted descending, top k mapped to results. -/
def keyword_fallback (chunks : List Chunk) (query : Chars) (k : Nat) : List Retrieved :=
  let qTerms := (wordsOf (asciiLower query)).filter fun t => 2 < t.length
  if qTerms = [] ∨ chunks = [] then []
  else
    let scored := chunks.enum.filterMap fun ic =>
      let text := asciiLower ic.2.text
      let score := (qTerms.map fun t => countSub t text).sum
      if score ≠ 0 then some ((score, ic.1), ic.2) else Option.none
    ((sortDesc scored).take k).map fun sc => ⟨sc.2.text, baseName sc.2.doc_path⟩

/-- Embedding of RAGIndex.retrieve.  The fitted vectorizer and the cosine
similarity ranking live in an external library; they are abstracted as the
rank argument producing candidate chunk indices for the expanded query (an
internal scoring failure is caught in the source and yields the empty
list, which a rank function models as well).  When the TF-IDF build has
succeeded, the model and embeddings are present, so the source line
returning the keyword fallback for a ready index without them is
unreachable here; the function is total, never raising. -/
def retrieveReady (rank : Chars → List Chunk → Nat → List Nat) (s1 : RagState)
    (query : Chars) (k : Nat) : List Retrieved × RagState :=
  if s1.ready = false then ([], s1)
  else (collectResults s1.chunks [] (rank (expand_query query) s1.chunks k), s1)

def retrieve (rank : Chars → List Chunk → Nat → List Nat) (s : RagState)
    (query : Chars) (k : Nat) : List Retrieved × RagState :=
  if stripL query = [] then ([], s)
  else retrieveReady rank (if s.ready then s else build s) query k

end RagIndex

/-! Concrete inputs used by the counterexamples and witnesses below. -/

/-- A profile whose five fields are all known but implausible (age 200). -/
def badProfile : Profile := ⟨some Sex.female, some 200, some 10, some 90, some (12/10)⟩

/-- A single-paragraph document of 1300 identical characters. -/
def longDoc : RagIndex.Document := ⟨str "kb/doc.md", List.replicate 1300 'x'⟩

def tinyDoc : RagIndex.Document := ⟨str "kb/tiny.md", str "hello world"⟩

def tinyChunk : RagIndex.Chunk := ⟨str "kb/tiny.md", str "tiny\nhello world", 0⟩

def askSexTurn : ChatMessage := ⟨str "assistant", str "do you mind sharing your sex?"⟩

def fillerTurn : ChatMessage := ⟨str "assistant", str "noted"⟩

/-- A history whose sex question is 32 assistant turns in the past. -/
def staleAskHistory : List ChatMessage :=
  askSexTurn :: List.replicate 31 fillerTurn ++ [⟨str "user", str "calculate my calories"⟩]

def proteinHistory : List ChatMessage :=
  [⟨str "user", str "i weigh 80 kg"⟩, ⟨str "user", str "how much protein do i need"⟩]

def emptyState : RagIndex.RagState := ⟨[], [], false, false⟩

/-- Whether one of the most recent 31 assistant turns of the history asks
for the field (matches its keyword and contains a question mark). -/
def recentAsks (f : RagService.Field) (history : List ChatMessage) : Bool :=
  ((history.reverse.filter fun t => t.role = str "assistant").take 31).any
    fun t => RagService.asksFor f t.content

/-! Helper lemmas shared by the claim theorems. -/

theorem pyRound_le_floor_add_one (q : ℚ) : pyRound q ≤ ⌊q⌋ + 1 := by
  unfold pyRound
  simp only [ratFloor_eq]
  split_ifs <;> omega

theorem floor_le_pyRound (q : ℚ) : ⌊q⌋ ≤ pyRound q := by
  unfold pyRound
  simp only [ratFloor_eq]
  split_ifs <;> omega

theorem pyRound_mono {q r : ℚ} (h : q ≤ r) : pyRound q ≤ pyRound r := by
  have hf : ⌊q⌋ ≤ ⌊r⌋ := Int.floor_le_floor h
  rcases lt_or_eq_of_le hf with hlt | heq
  · have h1 := pyRound_le_floor_add_one q
    have h2 := floor_le_pyRound r
    omega
  · have hfr : q - ⌊q⌋ ≤ r - ⌊r⌋ := by rw [← heq]; linarith
    unfold pyRound
    simp only [ratFloor_eq]
    split_ifs <;> first | omega | linarith

theorem foldl_user_filter (step : Profile → ChatMessage → Profile)
    (h : List ChatMessage) (p : Profile) :
    h.foldl (fun p t => if t.role = str "user" then step p t else p) p
      = (h.filter fun t => t.role = str "user").foldl step p := by
  induction h generalizing p with
  | nil => rfl
  | cons t rest ih =>
    by_cases hr : t.role = str "user"
    · simp [List.filter_cons, hr, ih]
    · simp [List.filter_cons, hr, ih]

theorem ageMatchAt_bounds (p : Option Char) (l : Chars) (v : Nat)
    (h : ProfileLogic.ageMatchAt p l = some v) : 10 ≤ v ∧ v ≤ 89 := by
  rcases l with _ | ⟨d1, _ | ⟨d2, rest⟩⟩
  · simp [ProfileLogic.ageMatchAt] at h
  · simp only [ProfileLogic.ageMatchAt] at h
    split_ifs at h
  · simp only [ProfileLogic.ageMatchAt] at h
    split_ifs at h with hw h1 h2
    · obtain ⟨hd1, hdig, _⟩ := h1
      injection h with h
      subst h
      unfold isDigitC at hdig
      simp only [Bool.and_eq_true, decide_eq_true_eq] at hdig
      unfold digitVal
      omega
    · obtain ⟨⟨hlo, hhi⟩, hdig, _⟩ := h2
      injection h with h
      subst h
      unfold isDigitC at hdig
      simp only [Bool.and_eq_true, decide_eq_true_eq] at hdig
      unfold digitVal
      omega

theorem heightInBranch_bounds (lower : Chars) (h : ℚ)
    (hx : ProfileLogic.heightInBranch lower = some h) : (90 : ℚ) ≤ h ∧ h ≤ 250 := by
  unfold ProfileLogic.heightInBranch at hx
  split at hx
  · split_ifs at hx with hg
    injection hx with hx
    subst hx
    exact hg
  · exact absurd hx (by simp)

theorem heightMBranch_bounds (lower : Chars) (h : ℚ)
    (hx : ProfileLogic.heightMBranch lower = some h) : (90 : ℚ) ≤ h ∧ h ≤ 250 := by
  unfold ProfileLogic.heightMBranch at hx
  split at hx
  · split_ifs at hx with hg
    · injection hx with hx
      subst hx
      exact hg
    · exact heightInBranch_bounds lower h hx
  · exact heightInBranch_bounds lower h hx

theorem heightCmBranch_bounds (lower : Chars) (h : ℚ)
    (hx : ProfileLogic.heightCmBranch lower = some h) : (90 : ℚ) ≤ h ∧ h ≤ 250 := by
  unfold ProfileLogic.heightCmBranch at hx
  split at hx
  · split_ifs at hx with hg
    · injection hx with hx
      subst hx
      exact hg
    · exact heightMBranch_bounds lower h hx
  · exact heightMBranch_bounds lower h hx

theorem extract_height_bounds (text : Chars) (h : ℚ)
    (hx : ProfileLogic.extract_height_cm text = some h) :
    ((90 : ℚ) ≤ h ∧ h ≤ 250)
      ∨ (∃ f i : ℕ, 3 ≤ f ∧ f ≤ 8 ∧ i < 12
          ∧ h = ((f * 12 + i : ℕ) : ℚ) * (254/100)) := by
  unfold ProfileLogic.extract_height_cm at hx
  split at hx
  · rename_i fi heq
    split_ifs at hx with hg
    · right
      injection hx with hx
      exact ⟨fi.1, fi.2, hg.2.2.1, hg.2.2.2, hg.2.1, hx.symm⟩
    · exact Or.inl (heightCmBranch_bounds _ h hx)
  · exact Or.inl (heightCmBranch_bounds _ h hx)

theorem stripL_nil_all_ws (q : Chars) (h : stripL q = []) : ∀ c ∈ q, isWs c = true := by
  unfold stripL at h
  have h1 : (q.dropWhile isWs).reverse.dropWhile isWs = [] := by
    have := congrArg List.reverse h
    simpa using this
  rcases hd : q.dropWhile isWs with _ | ⟨c, rest⟩
  · intro c hc
    exact List.dropWhile_eq_nil_iff.mp hd c hc
  · exfalso
    have hne : ¬ isWs c := by
      have := List.head?_dropWhile_not isWs q
      rw [hd] at this
      simpa using this
    have hmem : c ∈ (q.dropWhile isWs).reverse := by rw [hd]; simp
    exact hne (List.dropWhile_eq_nil_iff.mp h1 c hmem)

theorem ws_not_word (c : Char) (h : isWs c = true) : isWordC c = false := by
  unfold isWs at h
  simp only [Bool.or_eq_true, decide_eq_true_eq] at h
  rcases h with ((((h1 | h1) | h1) | h1) | h1) | h1 <;> subst h1 <;> decide

theorem lowerC_ws (c : Char) (h : isWs c = true) : isWs (lowerC c) = true := by
  unfold isWs at h
  simp only [Bool.or_eq_true, decide_eq_true_eq] at h
  rcases h with ((((h1 | h1) | h1) | h1) | h1) | h1 <;> subst h1 <;> decide

theorem wordsOfGo_all_ws (fuel : Nat) (q : Chars) (h : ∀ c ∈ q, isWs c = true) :
    wordsOfGo fuel q = [] := by
  induction fuel generalizing q with
  | zero => cases q <;> rfl
  | succ fuel ih =>
    cases q with
    | nil => rfl
    | cons c rest =>
      rw [wordsOfGo]
      rw [ws_not_word c (h c (by simp))]
      simp only [Bool.false_eq_true, if_false]
      exact ih rest fun c hc => h c (by simp [hc])

theorem wordsOf_all_ws (q : Chars) (h : ∀ c ∈ q, isWs c = true) : wordsOf q = [] :=
  wordsOfGo_all_ws q.length q h

theorem build_chunks_nil (s : RagIndex.RagState) (h0 : s.chunks = [])
    (hnr : (RagIndex.build s).ready = false) : (RagIndex.build s).chunks = [] := by
  unfold RagIndex.build at hnr ⊢
  split_ifs at hnr ⊢ with h1 h2 h3
  · exact h0
  · exact h0
  · exact h3

theorem blank_fallback_empty (q : Chars) (hb : stripL q = []) (chunks : List RagIndex.Chunk)
    (k : Nat) : RagIndex.keyword_fallback chunks q k = [] := by
  have hall : ∀ c ∈ asciiLower q, isWs c = true := by
    intro c hc
    rcases List.mem_map.mp hc with ⟨c0, hc0, rfl⟩
    exact lowerC_ws c0 (stripL_nil_all_ws q hb c0 hc0)
  unfold RagIndex.keyword_fallback
  rw [wordsOf_all_ws _ hall]
  simp

theorem stripL_length_le (l : Chars) : (stripL l).length ≤ l.length := by
  unfold stripL
  have h1 := (List.dropWhile_sublist (l := l) (p := isWs)).length_le
  have h2 := (List.dropWhile_sublist (l := (l.dropWhile isWs).reverse) (p := isWs)).length_le
  simp only [List.length_reverse] at *
  omega

theorem mem_foldl_append {α β : Type} (f : β → List α) (docs : List β) (acc : List α) (c : α) :
    c ∈ docs.foldl (fun a d => a ++ f d) acc ↔ c ∈ acc ∨ ∃ d ∈ docs, c ∈ f d := by
  induction docs generalizing acc with
  | nil => simp
  | cons d rest ih =>
    simp only [List.foldl_cons, ih, List.mem_append, List.mem_cons]
    constructor
    · rintro ((h | h) | ⟨d', hd', hc⟩)
      · exact Or.inl h
      · exact Or.inr ⟨d, Or.inl rfl, h⟩
      · exact Or.inr ⟨d', Or.inr hd', hc⟩
    · rintro (h | ⟨d', (rfl | hd'), hc⟩)
      · exact Or.inl (Or.inl h)
      · exact Or.inl (Or.inr hc)
      · exact Or.inr ⟨d', hd', hc⟩

theorem dedupGo_subset (seen : List Chars) (l : List RagIndex.Chunk) (c : RagIndex.Chunk)
    (h : c ∈ RagIndex.dedupGo seen l) : c ∈ l := by
  induction l generalizing seen with
  | nil => simp [RagIndex.dedupGo] at h
  | cons x rest ih =>
    rw [RagIndex.dedupGo] at h
    split_ifs at h with hx
    · exact List.mem_cons_of_mem x (ih _ h)
    · rcases List.mem_cons.mp h with rfl | h2
      · exact List.mem_cons_self _ _
      · exact List.mem_cons_of_mem x (ih _ h2)

theorem chunkDoc_text_bound (d : RagIndex.Document) (c : RagIndex.Chunk)
    (h : c ∈ RagIndex.chunkDoc d) :
    c.doc_path = d.path
      ∧ c.text.length ≤ (RagIndex.docHeader d).length + 1 + RagIndex.MAX_CHUNK_HARD := by
  unfold RagIndex.chunkDoc at h
  split_ifs at h with h0
  · simp at h
  · rcases List.mem_map.mp h with ⟨it, hit, rfl⟩
    refine ⟨rfl, ?_⟩
    have hb : (if RagIndex.MAX_CHUNK_HARD < it.2.length then it.2.take RagIndex.MAX_CHUNK_HARD
        else it.2).length ≤ RagIndex.MAX_CHUNK_HARD := by
      split_ifs with hl
      · simp [List.length_take]
      · omega
    calc (RagIndex.Chunk.mk d.path _ it.1).text.length
        ≤ (RagIndex.docHeader d ++ '\n' ::
            (if RagIndex.MAX_CHUNK_HARD < it.2.length then it.2.take RagIndex.MAX_CHUNK_HARD
             else it.2)).length := by
          exact le_trans (stripL_length_le _) (le_trans (stripL_length_le _) le_rfl)
      _ ≤ (RagIndex.docHeader d).length + 1 + RagIndex.MAX_CHUNK_HARD := by
          simp only [List.length_append, List.length_cons]
          omega

theorem alreadyAskedGo_eq (f : RagService.Field) (l : List ChatMessage) (n : Nat) :
    RagService.alreadyAskedGo f n l
      = ((l.filter fun t => t.role = str "assistant").take (31 - n)).any
          (fun t => RagService.asksFor f t.content) := by
  induction l generalizing n with
  | nil => simp [RagService.alreadyAskedGo]
  | cons t rest ih =>
    rw [RagService.alreadyAskedGo]
    by_cases h30 : n > 30
    · rw [if_pos h30]
      have h0 : 31 - n = 0 := by omega
      rw [h0]
      simp
    · rw [if_neg h30]
      by_cases hr : t.role = str "assistant"
      · rw [if_pos hr]
        have h31 : 31 - n = (30 - n) + 1 := by omega
        rw [List.filter_cons_of_pos (by simpa using hr), h31, List.take_succ_cons,
          List.any_cons]
        by_cases hask : RagService.asksFor f t.content = true
        · rw [if_pos hask, hask]
          simp
        · rw [if_neg hask, ih (n + 1)]
          have h30n : 31 - (n + 1) = 30 - n := by omega
          rw [h30n, show RagService.asksFor f t.content = false from by simpa using hask]
          simp
      · rw [if_neg hr, List.filter_cons_of_neg (by simpa using hr), ih n]

theorem already_asked_eq (f : RagService.Field) (h : List ChatMessage) :
    RagService.already_asked f h = recentAsks f h := by
  unfold RagService.already_asked recentAsks
  rw [alreadyAskedGo_eq]

theorem find?_first {α : Type} [DecidableEq α] (p : α → Bool) (l : List α) (a : α)
    (h : l.find? p = some a) : ∀ b ∈ l, p b → l.indexOf a ≤ l.indexOf b := by
  induction l with
  | nil => simp at h
  | cons x t ih =>
    by_cases hpx : p x
    · rw [List.find?_cons_of_pos _ hpx] at h
      injection h with h
      subst h
      intro b _ _
      rw [List.indexOf_cons_self]
      exact Nat.zero_le _
    · rw [List.find?_cons_of_neg _ (by simpa using hpx)] at h
      have hax : a ≠ x := by
        rintro rfl
        exact hpx (List.find?_some h)
      intro b hb hpb
      have hbx : b ≠ x := by
        rintro rfl
        exact hpx hpb
      have hbt : b ∈ t := by
        rcases List.mem_cons.mp hb with rfl | h2
        · exact absurd rfl hbx
        · exact h2
      rw [List.indexOf_cons_ne _ (Ne.symm hax), List.indexOf_cons_ne _ (Ne.symm hbx)]
      have := ih h b hbt hpb
      omega

theorem extract_height_bounds_disj (text : Chars) (h : ℚ)
    (hx : ProfileLogic.extract_height_cm text = some h) :
    ((90 : ℚ) ≤ h ∧ h ≤ 250)
      ∨ (∃ f i : ℕ, 3 ≤ f ∧ f ≤ 8 ∧ i < 12
          ∧ h = ((f * 12 + i : ℕ) : ℚ) * (254/100)) := by
  unfold ProfileLogic.extract_height_cm at hx
  split at hx
  · rename_i fi heq
    split_ifs at hx with hg
    · right
      injection hx with hx
      exact ⟨fi.1, fi.2, hg.2.2.1, hg.2.2.2, hg.2.1, hx.symm⟩
    · exact Or.inl (heightCmBranch_bounds _ h hx)
  · exact Or.inl (heightCmBranch_bounds _ h hx)

/-! The claim theorems. -/

/-- C1: the sex extractor matches a whole word from the RE_GENDER
alternation and maps it with genderMap; a match maps to male exactly when it
is one of male, man, woman, boy or m — so woman (which contains the
substring man) maps to male, not female as the spec states. -/
theorem sex_extractor_mapping (msg : Chars) :
    (ProfileLogic.parse_profile_facts msg).sex
        = (ProfileLogic.genderSearch (asciiLower msg)).map ProfileLogic.genderMap
      ∧ ∀ w, ProfileLogic.genderSearch (asciiLower msg) = some w →
          w ∈ ProfileLogic.genderAlts
            ∧ (ProfileLogic.genderMap w = Sex.male ↔
                w ∈ [str "male", str "man", str "woman", str "boy", str "m"]) := by
  refine ⟨rfl, fun w hw => ?_⟩
  have hmem := wordAltSearch_mem _ _ _ hw
  refine ⟨hmem, ?_⟩
  simp only [ProfileLogic.genderAlts, List.mem_cons, List.not_mem_nil, or_false] at hmem
  rcases hmem with rfl | rfl | rfl | rfl | rfl | rfl | rfl | rfl <;> decide

/-- C1 counterexample: a message whose first sex-word match is woman yields
sex = male in both extractors, against the spec's claim of female. -/
theorem sex_woman_maps_to_male :
    (ProfileLogic.parse_profile_facts (str "i am a woman")).sex = some Sex.male
      ∧ (RagService.parse_profile_facts (str "i am a woman")).sex = some Sex.male :=
  ⟨rfl, rfl⟩

/-- C2: every chunk produced by chunk_docs comes from one of the documents
and its text is bounded by the provenance header length plus one newline
plus MAX_CHUNK_HARD — the hard cap bounds only the body, because the header
is prefixed after the truncation to MAX_CHUNK_HARD. -/
theorem chunk_length_bound (docs : List RagIndex.Document) (c : RagIndex.Chunk)
    (h : c ∈ RagIndex.chunk_docs docs) :
    ∃ d ∈ docs, c.doc_path = d.path
      ∧ c.text.length ≤ (RagIndex.docHeader d).length + 1 + RagIndex.MAX_CHUNK_HARD := by
  unfold RagIndex.chunk_docs at h
  have h2 := dedupGo_subset _ _ _ h
  rw [mem_foldl_append] at h2
  rcases h2 with h2 | ⟨d, hd, hc⟩
  · simp at h2
  · obtain ⟨hp, hb⟩ := chunkDoc_text_bound d c hc
    exact ⟨d, hd, hp, hb⟩

/-- C2 witness: the bound instantiated on a one-line document. -/
theorem chunk_length_bound_witness :
    ∃ d ∈ [tinyDoc], tinyChunk.doc_path = d.path
      ∧ tinyChunk.text.length
          ≤ (RagIndex.docHeader d).length + 1 + RagIndex.MAX_CHUNK_HARD :=
  chunk_length_bound [tinyDoc] tinyChunk (by decide)

/-- C2 counterexample: a single 1300-character paragraph with stem doc
yields one chunk of 1204 characters, exceeding MAX_CHUNK_HARD = 1200. -/
theorem chunk_exceeds_cap :
    (RagIndex.chunk_docs [longDoc]).map (fun c => c.text.length) = [1204]
      ∧ RagIndex.MAX_CHUNK_HARD < 1204 := by
  constructor
  · rfl
  · decide

/-- C3: with all five fields known and nonzero, compute_tdee returns the
rounded Mifflin-St Jeor BMR and the band rounded from tdee times 0.95 and
1.05; the band satisfies tdee_low ≤ tdee_high whenever the unrounded tdee
is nonnegative (for a negative tdee the band inverts). -/
theorem compute_tdee_formula (s : Sex) (a w h act : ℚ)
    (ha : a ≠ 0) (hw : w ≠ 0) (hh : h ≠ 0) (hact : act ≠ 0) :
    ProfileLogic.compute_tdee ⟨some s, some a, some w, some h, some act⟩
        = some ⟨pyRound (ProfileLogic.mifflin s w h a),
                pyRound (ProfileLogic.mifflin s w h a * act * (95/100)),
                pyRound (ProfileLogic.mifflin s w h a * act * (105/100))⟩
      ∧ (0 ≤ ProfileLogic.mifflin s w h a * act →
          pyRound (ProfileLogic.mifflin s w h a * act * (95/100))
            ≤ pyRound (ProfileLogic.mifflin s w h a * act * (105/100))) := by
  constructor
  · unfold ProfileLogic.compute_tdee
    simp [ha, hw, hh, hact]
  · intro ht
    apply pyRound_mono
    nlinarith

/-- C3 witness: the formula instantiated on the young-male test profile. -/
theorem compute_tdee_formula_witness :
    ProfileLogic.compute_tdee ⟨some Sex.male, some 18, some 60, some 170, some (12/10)⟩
        = some ⟨pyRound (ProfileLogic.mifflin Sex.male 60 170 18),
                pyRound (ProfileLogic.mifflin Sex.male 60 170 18 * (12/10) * (95/100)),
                pyRound (ProfileLogic.mifflin Sex.male 60 170 18 * (12/10) * (105/100))⟩
      ∧ (0 ≤ ProfileLogic.mifflin Sex.male 60 170 18 * (12/10) →
          pyRound (ProfileLogic.mifflin Sex.male 60 170 18 * (12/10) * (95/100))
            ≤ pyRound (ProfileLogic.mifflin Sex.male 60 170 18 * (12/10) * (105/100))) :=
  compute_tdee_formula Sex.male 18 60 170 (12/10)
    (by norm_num) (by norm_num) (by norm_num) (by norm_num)

/-- C3 counterexample: an implausible known-field profile (age 200, weight
10, height 90) has negative BMR and an inverted band: tdee_high = -628 is
smaller than tdee_low = -568, refuting tdee_low ≤ tdee_high always. -/
theorem compute_tdee_band_inverted :
    ProfileLogic.compute_tdee badProfile = some ⟨-498, -568, -628⟩
      ∧ ((-628 : ℤ) < -568) := by
  constructor
  · show ProfileLogic.compute_tdee
        ⟨some Sex.female, some 200, some 10, some 90, some (12/10)⟩ = some ⟨-498, -568, -628⟩
    unfold ProfileLogic.compute_tdee ProfileLogic.mifflin pyRound
    simp only [ratFloor_eq, reduceCtorEq, if_false]
    norm_num
  · decide

/-- C4: retrieve is total; a blank query returns the empty list, and when
the index is still not ready after the lazy build (under the reachable-state
invariant that a not-ready state holds no chunks) the result equals the
keyword fallback over the state's chunks (both empty). -/
theorem retrieve_never_fails (rank : Chars → List RagIndex.Chunk → Nat → List Nat)
    (s : RagIndex.RagState) (q : Chars) (k : Nat)
    (hinv : s.ready = false → s.chunks = []) :
    (stripL q = [] → (RagIndex.retrieve rank s q k).1 = [])
      ∧ ((if s.ready then s else RagIndex.build s).ready = false →
          (RagIndex.retrieve rank s q k).1
            = RagIndex.keyword_fallback (if s.ready then s else RagIndex.build s).chunks q k) := by
  constructor
  · intro hb
    unfold RagIndex.retrieve
    simp [hb]
  · intro hnr
    by_cases hb : stripL q = []
    · rw [blank_fallback_empty q hb]
      unfold RagIndex.retrieve
      simp [hb]
    · have hch : (if s.ready then s else RagIndex.build s).chunks = [] := by
        by_cases hr : s.ready
        · rw [if_pos hr] at hnr
          rw [hr] at hnr
          simp at hnr
        · rw [if_neg hr] at hnr ⊢
          exact build_chunks_nil s (hinv (by simpa using hr)) hnr
      have hfb : RagIndex.keyword_fallback
          (if s.ready then s else RagIndex.build s).chunks q k = [] := by
        rw [hch]
        unfold RagIndex.keyword_fallback
        simp
      rw [hfb]
      unfold RagIndex.retrieve RagIndex.retrieveReady
      rw [if_neg hb, if_pos hnr]

/-- C4 witness: retrieval on the empty zero-document index. -/
theorem retrieve_never_fails_witness :
    (stripL (str " ") = []
        → (RagIndex.retrieve (fun _ _ _ => []) emptyState (str " ") 1).1 = [])
      ∧ ((if emptyState.ready then emptyState else RagIndex.build emptyState).ready = false →
          (RagIndex.retrieve (fun _ _ _ => []) emptyState (str " ") 1).1
            = RagIndex.keyword_fallback
                (if emptyState.ready then emptyState else RagIndex.build emptyState).chunks
                (str " ") 1) :=
  retrieve_never_fails (fun _ _ _ => []) emptyState (str " ") 1 (fun _ => rfl)

/-- C5: both rebuild_profile implementations are the left fold of the merge
of extracted facts over exactly the user-role turns in order, and the field
merge is last-mention-wins: a detected (some) value overwrites, an
undetected (none) one leaves the field untouched, and appending a non-user
turn changes nothing. -/
theorem rebuild_profile_fold :
    (∀ h : List ChatMessage,
        ProfileLogic.rebuild_profile h
          = (h.filter fun t => t.role = str "user").foldl
              (fun p t => ProfileLogic.mergeFacts p (ProfileLogic.parse_profile_facts t.content))
              emptyProfile)
      ∧ (∀ h : List ChatMessage,
          RagService.rebuild_profile h
            = (h.filter fun t => t.role = str "user").foldl
                (fun p t => ProfileLogic.mergeFacts p (RagService.parse_profile_facts t.content))
                emptyProfile)
      ∧ (∀ (h : List ChatMessage) (t : ChatMessage), t.role ≠ str "user" →
          ProfileLogic.rebuild_profile (h ++ [t]) = ProfileLogic.rebuild_profile h)
      ∧ (∀ (h : List ChatMessage) (t : ChatMessage), t.role = str "user" →
          ProfileLogic.rebuild_profile (h ++ [t])
            = ProfileLogic.mergeFacts (ProfileLogic.rebuild_profile h)
                (ProfileLogic.parse_profile_facts t.content))
      ∧ (∀ p q : Profile,
          (q.sex = none → (ProfileLogic.mergeFacts p q).sex = p.sex)
          ∧ (∀ v, q.sex = some v → (ProfileLogic.mergeFacts p q).sex = some v)
          ∧ (q.age = none → (ProfileLogic.mergeFacts p q).age = p.age)
          ∧ (∀ v, q.age = some v → (ProfileLogic.mergeFacts p q).age = some v)
          ∧ (q.weight_kg = none → (ProfileLogic.mergeFacts p q).weight_kg = p.weight_kg)
          ∧ (∀ v, q.weight_kg = some v → (ProfileLogic.mergeFacts p q).weight_kg = some v)
          ∧ (q.height_cm = none → (ProfileLogic.mergeFacts p q).height_cm = p.height_cm)
          ∧ (∀ v, q.height_cm = some v → (ProfileLogic.mergeFacts p q).height_cm = some v)
          ∧ (q.activity_factor = none →
              (ProfileLogic.mergeFacts p q).activity_factor = p.activity_factor)
          ∧ (∀ v, q.activity_factor = some v →
              (ProfileLogic.mergeFacts p q).activity_factor = some v)) := by
  refine ⟨fun h => foldl_user_filter _ h emptyProfile,
    fun h => foldl_user_filter _ h emptyProfile, fun h t ht => ?_, fun h t ht => ?_,
    fun p q => ?_⟩
  · unfold ProfileLogic.rebuild_profile
    rw [List.foldl_append]
    simp [ht]
  · unfold ProfileLogic.rebuild_profile
    rw [List.foldl_append]
    simp [ht]
  · refine ⟨fun hn => ?_, fun v hv => ?_, fun hn => ?_, fun v hv => ?_, fun hn => ?_,
      fun v hv => ?_, fun hn => ?_, fun v hv => ?_, fun hn => ?_, fun v hv => ?_⟩ <;>
    · simp only [ProfileLogic.mergeFacts]
      first
        | (rw [hn])
        | (rw [hv])

/-- C6: tdeeAskField selects a missing field not recently asked about and is
first in canonical order among such fields, and an identical clarifying
question is never repeated immediately after being asked; but already-asked
only sees the most recent 31 assistant turns, so a question asked longer ago
can be re-asked (the spec says any prior assistant turn). -/
theorem tdee_ask_selection :
    (∀ (missing : List RagService.Field) (h : List ChatMessage) (f : RagService.Field),
        RagService.tdeeAskField missing h = some f →
          f ∈ missing ∧ recentAsks f h = false
            ∧ ∀ g ∈ RagService.FIELD_ORDER, g ∈ missing → recentAsks g h = false →
                RagService.FIELD_ORDER.indexOf f ≤ RagService.FIELD_ORDER.indexOf g)
      ∧ (∀ (missing : List RagService.Field) (h : List ChatMessage),
          RagService.tdeeAskField missing h = none →
            ∀ f ∈ RagService.FIELD_ORDER, f ∈ missing → recentAsks f h = true)
      ∧ (∀ (missing : List RagService.Field) (h : List ChatMessage) (t : ChatMessage)
            (f : RagService.Field),
          t.role = str "assistant" → RagService.asksFor f t.content = true →
            RagService.tdeeAskField missing (h ++ [t]) ≠ some f) := by
  have hbridge : ∀ f h, RagService.already_asked f h = recentAsks f h := fun f h =>
    already_asked_eq f h
  refine ⟨fun missing h f hf => ?_, fun missing h hn f hford hfmiss => ?_,
    fun missing h t f hrole hask hcontra => ?_⟩
  · have hp := List.find?_some hf
    simp only [Bool.and_eq_true, Bool.not_eq_true'] at hp
    obtain ⟨hmem, hnask⟩ := hp
    refine ⟨by simpa using hmem, by rw [← hbridge]; exact hnask, ?_⟩
    intro g hg hgmiss hgask
    refine find?_first _ _ _ hf g hg ?_
    simp only [Bool.and_eq_true, Bool.not_eq_true']
    exact ⟨by simpa using hgmiss, by rw [hbridge]; exact hgask⟩
  · have := List.find?_eq_none.mp hn f hford
    simp only [Bool.and_eq_true, Bool.not_eq_true', not_and] at this
    have h2 := this (by simpa using hfmiss)
    rw [← hbridge]
    exact Bool.not_eq_false _ |>.mp h2
  · have hasked : RagService.already_asked f (h ++ [t]) = true := by
      unfold RagService.already_asked RagService.alreadyAskedGo
      rw [List.reverse_append]
      simp only [List.reverse_cons, List.reverse_nil, List.nil_append, List.singleton_append]
      rw [if_neg (by omega), if_pos hrole, if_pos hask]
    have hp := List.find?_some hcontra
    simp only [Bool.and_eq_true, Bool.not_eq_true'] at hp
    rw [hp.2] at hasked
    exact Bool.false_ne_true hasked

/-- C6 counterexample: with a sex question followed by 31 newer assistant
turns, the engine asks for sex again — the prior assistant turn that asked
is outside the 31-turn scan window, against the spec's any-prior-turn
claim. -/
theorem tdee_ask_repeats_after_window :
    RagService.tdeeAskField [RagService.Field.sex] staleAskHistory
        = some RagService.Field.sex
      ∧ askSexTurn ∈ staleAskHistory
      ∧ askSexTurn.role = str "assistant"
      ∧ RagService.asksFor RagService.Field.sex askSexTurn.content = true := by
  refine ⟨by decide, by decide, rfl, by decide⟩

/-- C7: a stored height always lies in [90, 250] cm unless it came from the
feet-and-inches branch, whose guard (3-8 feet, 0-11 inches) is not range
filtered; every stored height therefore lies in [90, 271.78] cm, not
[90, 250] as the spec states. -/
theorem height_extractor_ranges (msg : Chars) (h : ℚ)
    (hx : (ProfileLogic.parse_profile_facts msg).height_cm = some h) :
    (((90 : ℚ) ≤ h ∧ h ≤ 250)
        ∨ (∃ f i : ℕ, 3 ≤ f ∧ f ≤ 8 ∧ i < 12
            ∧ h = ((f * 12 + i : ℕ) : ℚ) * (254/100)))
      ∧ ((90 : ℚ) ≤ h ∧ h ≤ 27178/100) := by
  simp only [ProfileLogic.parse_profile_facts] at hx
  refine ⟨extract_height_bounds_disj _ h hx, ?_⟩
  rcases extract_height_bounds_disj _ h hx with ⟨h1, h2⟩ | ⟨f, i, hf3, hf8, hi, rfl⟩
  · constructor <;> linarith
  · have hf3q : (3 : ℚ) ≤ (f : ℚ) := by exact_mod_cast hf3
    have hf8q : (f : ℚ) ≤ 8 := by exact_mod_cast hf8
    have hiq : (i : ℚ) ≤ 11 := by exact_mod_cast Nat.lt_succ_iff.mp hi
    have hi0 : (0 : ℚ) ≤ (i : ℚ) := by positivity
    push_cast
    constructor <;> nlinarith

/-- C7 witness: the range statement instantiated at a plain centimeter
message. -/
theorem height_extractor_ranges_witness :
    (((90 : ℚ) ≤ ((180 : ℕ) : ℚ) ∧ ((180 : ℕ) : ℚ) ≤ 250)
        ∨ (∃ f i : ℕ, 3 ≤ f ∧ f ≤ 8 ∧ i < 12
            ∧ ((180 : ℕ) : ℚ) = ((f * 12 + i : ℕ) : ℚ) * (254/100)))
      ∧ ((90 : ℚ) ≤ ((180 : ℕ) : ℚ) ∧ ((180 : ℕ) : ℚ) ≤ 27178/100) :=
  height_extractor_ranges (str "i am 180 cm") ((180 : ℕ) : ℚ) (by rfl)

/-- C7 counterexample: 8 ft 3 parses to 99 inches times 2.54 = 251.46 cm,
which is outside [90, 250] yet stored. -/
theorem height_ft_in_exceeds_range :
    (ProfileLogic.parse_profile_facts (str "i am 8 ft 3")).height_cm
        = some (((99 : ℕ) : ℚ) * (254/100))
      ∧ (250 : ℚ) < ((99 : ℕ) : ℚ) * (254/100) := by
  constructor
  · rfl
  · norm_num

/-- C8: the profile_logic age extractor yields only naturals in [10, 89],
while the rag_service extractor yields only naturals in [11, 89] — its
guard 10 < age < 90 rejects 10, against the spec's acceptance of 10. -/
theorem age_extractor_ranges :
    (∀ (msg : Chars) (a : ℚ), (ProfileLogic.parse_profile_facts msg).age = some a →
        ∃ n : ℕ, a = (n : ℚ) ∧ 10 ≤ n ∧ n ≤ 89)
      ∧ (∀ (msg : Chars) (a : ℚ), (RagService.parse_profile_facts msg).age = some a →
          ∃ n : ℕ, a = (n : ℚ) ∧ 11 ≤ n ∧ n ≤ 89) := by
  constructor
  · intro msg a hx
    simp only [ProfileLogic.parse_profile_facts] at hx
    rw [Option.map_eq_some'] at hx
    obtain ⟨n, hn, heq⟩ := hx
    obtain ⟨p2, l2, hm⟩ := scanSearch_some _ _ _ _ hn
    obtain ⟨h10, h89⟩ := ageMatchAt_bounds p2 l2 n hm
    exact ⟨n, heq.symm, h10, h89⟩
  · intro msg a hx
    simp only [RagService.parse_profile_facts] at hx
    rw [Option.bind_eq_some] at hx
    obtain ⟨n, _, hif⟩ := hx
    split_ifs at hif with hg
    injection hif with hif
    exact ⟨n, hif.symm, by omega, by omega⟩

/-- C8 counterexample: a message stating age 10 yields age = 10 in
profile_logic but no age at all in rag_service. -/
theorem rag_age_ten_rejected :
    (ProfileLogic.parse_profile_facts (str "my son is 10")).age = some ((10 : ℕ) : ℚ)
      ∧ (RagService.parse_profile_facts (str "my son is 10")).age = none :=
  ⟨rfl, rfl⟩

/-- C9: the returned intent is none exactly when the history has no user
turn, and it always lies in the five-value range recall, tdee, general,
protein or none — protein being a fifth state the spec does not list. -/
theorem response_intent_range (h : List ChatMessage) :
    (RagService.responseIntent h = RagService.Intent.none
        ↔ (h.filter fun t => t.role = str "user") = [])
      ∧ (RagService.responseIntent h = RagService.Intent.recall
          ∨ RagService.responseIntent h = RagService.Intent.tdee
          ∨ RagService.responseIntent h = RagService.Intent.general
          ∨ RagService.responseIntent h = RagService.Intent.protein
          ∨ RagService.responseIntent h = RagService.Intent.none) := by
  rcases hk : (h.filter fun t => t.role = str "user").getLast? with _ | t
  · have hnil : (h.filter fun t => t.role = str "user") = [] :=
      List.getLast?_eq_none_iff.mp hk
    have hres : RagService.responseIntent h = RagService.Intent.none := by
      simp only [RagService.responseIntent]
      rw [hk]
    exact ⟨⟨fun _ => hnil, fun _ => hres⟩, Or.inr (Or.inr (Or.inr (Or.inr hres)))⟩
  · have hne : (h.filter fun t => t.role = str "user") ≠ [] := by
      intro h0
      rw [h0] at hk
      simp at hk
    have hmain : RagService.responseIntent h ≠ RagService.Intent.none
        ∧ (RagService.responseIntent h = RagService.Intent.recall
            ∨ RagService.responseIntent h = RagService.Intent.tdee
            ∨ RagService.responseIntent h = RagService.Intent.general
            ∨ RagService.responseIntent h = RagService.Intent.protein) := by
      simp only [RagService.responseIntent]
      rw [hk]
      dsimp only
      split_ifs <;> simp
    exact ⟨⟨fun hres => absurd hres hmain.1, fun h0 => absurd h0 hne⟩,
      by rcases hmain.2 with h1 | h1 | h1 | h1 <;> simp [h1]⟩

/-- C9 counterexample: a history whose last user turn asks for protein with
a known weight returns the intent protein, which is outside the spec's
four-state range. -/
theorem response_intent_protein :
    RagService.responseIntent proteinHistory = RagService.Intent.protein := by
  decide

/-- C10: for a non-safety user message and a non-empty reply, the sanitizer
returns the rebuilt reply from the sentences without cliches, falling back
to the original reply when the filter would remove everything, and the
result is never empty. -/
theorem sanitize_cliches_spec (u r : Chars)
    (hs : RagService.is_safety_topic u = false) (hr : r ≠ []) :
    RagService.sanitize_cliches u r ≠ []
      ∧ RagService.sanitize_cliches u r
          = (if RagService.cleanedReply r = [] then r else RagService.cleanedReply r) := by
  have hcore : RagService.sanitize_cliches u r
      = (if RagService.cleanedReply r = [] then r else RagService.cleanedReply r) := by
    unfold RagService.sanitize_cliches
    rw [hs]
    simp
  refine ⟨?_, hcore⟩
  rw [hcore]
  split_ifs with hc
  · exact hr
  · exact hc

/-- C10 witness: the sanitizer on a plain greeting and a one-sentence
reply. -/
theorem sanitize_cliches_spec_witness :
    RagService.sanitize_cliches (str "hello") (str "Do squats.") ≠ []
      ∧ RagService.sanitize_cliches (str "hello") (str "Do squats.")
          = (if RagService.cleanedReply (str "Do squats.") = []
             then str "Do squats." else RagService.cleanedReply (str "Do squats.")) :=
  sanitize_cliches_spec (str "hello") (str "Do squats.") (by rfl) (by decide)

end AiFitnessCoach
